import Mathlib

/-!
Shallow embedding of `src/vidua/bps.py` (BPS patch validation and
application) together with theorems settling the specification claims.

Streams are modelled as a `List Nat` of byte values plus an explicit
position; every Python stream operation (`read`, `seek`, `tell`) becomes
explicit position arithmetic.  Machine integers are `Nat`/`Int`.
-/

deriving instance DecidableEq for Except

set_option maxRecDepth 8000

namespace Vidua

/-- Little-endian interpretation of a byte list, modelling Python's
`int.from_bytes(bs, byteorder='little')`. -/
def leNum : List Nat → Nat
  | [] => 0
  | b :: rest => b + 256 * leNum rest

/-- One bit-iteration of the reflected CRC-32 update. -/
def crc32Bit (c : Nat) : Nat :=
  if c &&& 1 = 1 then (c >>> 1) ^^^ 0xEDB88320 else c >>> 1

/-- Eight bit-iterations, i.e. the per-byte CRC-32 update. -/
def crc32Byte (c b : Nat) : Nat :=
  crc32Bit (crc32Bit (crc32Bit (crc32Bit (crc32Bit (crc32Bit (crc32Bit (crc32Bit (c ^^^ b))))))))

/-- Running CRC-32 state over a byte list. -/
def crc32Aux : Nat → List Nat → Nat
  | c, [] => c
  | c, b :: rest => crc32Aux (crc32Byte c b) rest

/-- CRC-32 of a byte list: models `zlib.crc32(data)` (standard reflected
CRC-32, polynomial `0xEDB88320`, initial value and final xor
`0xFFFFFFFF`), the checksum the source uses for all three stored
checksums. -/
def crc32 (data : List Nat) : Nat :=
  crc32Aux 0xFFFFFFFF data ^^^ 0xFFFFFFFF

/-- Core of `decode_number`: the `while True` loop, phrased over the bytes
remaining from the current position.  Python's guard
`pos > end - 12` is exactly `rest.length < 12` on the remaining bytes.
Returns the decoded value and the number of bytes consumed; `none` models
the `ValueError("Invalid number encoding.")` raise. -/
def decodeNumCore : List Nat → Nat → Nat → Option (Nat × Nat)
  | [], _, _ => none
  | x :: rest, data, shift =>
    if (x :: rest).length < 12 then none
    else
      let data1 := data + (x &&& 0x7f) * shift
      if x &&& 0x80 ≠ 0 then some (data1, 1)
      else
        match decodeNumCore rest (data1 + shift * 128) (shift * 128) with
        | none => none
        | some (v, k) => some (v, k + 1)

/-- Python `decode_number(bps_patch)`, reading at position `pos` of the
stream `p`: returns the value and the stream position after the read, or
`none` for the `ValueError` raise (which leaves the stream at its end). -/
def decode_number (p : List Nat) (pos : Nat) : Option (Nat × Nat) :=
  match decodeNumCore (p.drop pos) 0 1 with
  | none => none
  | some (v, k) => some (v, pos + k)

/-- The distinct `ValueError` raises of `bps.py`, one constructor per
`raise` message.  `checksum`, `sizeMismatch` and `incompatibleSource`
carry the values interpolated into their messages. -/
inductive BpsError where
  | formatMarker
  | patchTooShort
  | checksum (stored calculated : Nat)
  | decodeSourceSize
  | decodeTargetSize
  | decodeMetadataSize
  | metadataTooLarge
  | invalidNumber
  | readBeyondEndOfSource
  | writeBeyondEndOfTarget
  | targetReadTooLarge
  | readBeyondBeginningOfSource
  | readBeyondBeginningOfTarget
  | readBeyondEndOfTarget
  | sizeMismatch (expected actual : Int)
  | negativeSeek
  | incompatibleSource (stored calculated : Nat)
deriving Repr, DecidableEq

/-- The mutable state of the command loop in `validate_patch`: the patch
stream position and the three cursors `source_position`,
`target_position`, `outread_position` (Python ints, so `Int`). -/
structure VState where
  pos : Nat
  sp : Int
  tp : Int
  orp : Int
deriving Repr, DecidableEq

/-- The magic marker `b'BPS1'`. -/
def bpsMagic : List Nat := [66, 80, 83, 49]

/-- One iteration of the command loop of `validate_patch`: decode one
command at `s.pos` and apply its bounds/cursor rules.  Errors carry the
stream position at the raise (a decode failure leaves the stream at its
end, hence `p.length`). -/
def validateStep (p : List Nat) (source_size target_size : Nat) (s : VState) :
    Except (BpsError × Nat) VState :=
  match decode_number p s.pos with
  | none => .error (.invalidNumber, p.length)
  | some (data, pos1) =>
    let command := data &&& 3
    let length : Nat := (data >>> 2) + 1
    if command = 0 then
      -- SourceRead
      let tp1 := s.tp + (length : Int)
      if tp1 > (source_size : Int) then .error (.readBeyondEndOfSource, pos1)
      else if tp1 > (target_size : Int) then .error (.writeBeyondEndOfTarget, pos1)
      else .ok { s with pos := pos1, tp := tp1 }
    else if command = 1 then
      -- TargetRead
      let tp1 := s.tp + (length : Int)
      if tp1 > (target_size : Int) then .error (.writeBeyondEndOfTarget, pos1)
      else
        let pos2 := pos1 + length
        if (pos2 : Int) > (p.length : Int) - 12 then .error (.targetReadTooLarge, pos2)
        else .ok { s with pos := pos2, tp := tp1 }
    else if command = 2 then
      -- SourceCopy
      match decode_number p pos1 with
      | none => .error (.invalidNumber, p.length)
      | some (copy_data, pos2) =>
        let source_relative_offset : Int :=
          (if copy_data &&& 1 = 1 then -1 else 1) * (copy_data >>> 1)
        if s.sp + source_relative_offset < 0 then
          .error (.readBeyondBeginningOfSource, pos2)
        else
          let sp1 := s.sp + source_relative_offset + (length : Int)
          if sp1 > (source_size : Int) then .error (.readBeyondEndOfSource, pos2)
          else
            let tp1 := s.tp + (length : Int)
            if tp1 > (target_size : Int) then .error (.writeBeyondEndOfTarget, pos2)
            else .ok { pos := pos2, sp := sp1, tp := tp1, orp := s.orp }
    else
      -- TargetCopy
      match decode_number p pos1 with
      | none => .error (.invalidNumber, p.length)
      | some (copy_data, pos2) =>
        let target_relative_offset : Int :=
          (if copy_data &&& 1 = 1 then -1 else 1) * (copy_data >>> 1)
        let orp1 := s.orp + target_relative_offset
        if orp1 < 0 then .error (.readBeyondBeginningOfTarget, pos2)
        else if orp1 ≥ s.tp then .error (.readBeyondEndOfTarget, pos2)
        else
          let tp1 := s.tp + (length : Int)
          if tp1 > (target_size : Int) then .error (.writeBeyondEndOfTarget, pos2)
          else .ok { pos := pos2, sp := s.sp, tp := tp1, orp := orp1 + (length : Int) }

/-- `decodeNumCore` consumes at least one byte and stays at least 11 bytes
away from the end of the remaining stream. -/
theorem decodeNumCore_consumed {rest : List Nat} {data shift v k : Nat}
    (h : decodeNumCore rest data shift = some (v, k)) :
    1 ≤ k ∧ k + 11 ≤ rest.length := by
  induction rest generalizing data shift v k with
  | nil => simp [decodeNumCore] at h
  | cons x rest' ih =>
    rw [decodeNumCore] at h
    dsimp only at h
    by_cases hlen : (x :: rest').length < 12
    · rw [if_pos hlen] at h; cases h
    · rw [if_neg hlen] at h
      by_cases hbit : x &&& 0x80 ≠ 0
      · rw [if_pos hbit] at h
        cases h
        simp only [List.length_cons] at hlen ⊢
        omega
      · rw [if_neg hbit] at h
        cases hrec : decodeNumCore rest' (data + (x &&& 0x7f) * shift + shift * 128) (shift * 128) with
        | none => rw [hrec] at h; cases h
        | some vk =>
          obtain ⟨v', k'⟩ := vk
          rw [hrec] at h
          cases h
          have := ih hrec
          simp only [List.length_cons] at hlen ⊢
          omega

/-- `decode_number` advances the stream position by at least one byte, and
never past `length - 11`. -/
theorem decode_number_pos_lt {p : List Nat} {pos v pos1 : Nat}
    (h : decode_number p pos = some (v, pos1)) :
    pos < pos1 ∧ pos1 + 11 ≤ p.length := by
  unfold decode_number at h
  cases hc : decodeNumCore (p.drop pos) 0 1 with
  | none => rw [hc] at h; exact absurd h (by simp)
  | some vk =>
    obtain ⟨v', k⟩ := vk
    rw [hc] at h
    obtain ⟨hv, hk⟩ := Prod.mk.injEq .. ▸ Option.some.inj h
    have hcons := decodeNumCore_consumed hc
    have hdl : (p.drop pos).length = p.length - pos := List.length_drop ..
    omega

/-- A successful `validateStep` strictly advances the patch position. -/
theorem validateStep_pos_lt {p : List Nat} {ss ts : Nat} {s s' : VState}
    (h : validateStep p ss ts s = .ok s') : s.pos < s'.pos ∧ s'.pos ≤ p.length := by
  unfold validateStep at h
  cases hd : decode_number p s.pos with
  | none => rw [hd] at h; cases h
  | some dp =>
    obtain ⟨data, pos1⟩ := dp
    rw [hd] at h
    dsimp only at h
    obtain ⟨hlt1, hlt2⟩ := decode_number_pos_lt hd
    by_cases h0 : data &&& 3 = 0
    · rw [if_pos h0] at h
      split_ifs at h
      all_goals first
        | (cases h; done)
        | (obtain rfl := Except.ok.inj h; dsimp only; omega)
    · rw [if_neg h0] at h
      by_cases h1 : data &&& 3 = 1
      · rw [if_pos h1] at h
        split_ifs at h
        all_goals first
          | (cases h; done)
          | (obtain rfl := Except.ok.inj h; dsimp only; omega)
      · rw [if_neg h1] at h
        by_cases h2 : data &&& 3 = 2
        · rw [if_pos h2] at h
          cases hd2 : decode_number p pos1 with
          | none => rw [hd2] at h; cases h
          | some dp2 =>
            obtain ⟨cd, pos2⟩ := dp2
            rw [hd2] at h
            dsimp only at h
            obtain ⟨hlt3, hlt4⟩ := decode_number_pos_lt hd2
            split_ifs at h
            all_goals first
              | (cases h; done)
              | (obtain rfl := Except.ok.inj h; dsimp only; omega)
        · rw [if_neg h2] at h
          cases hd2 : decode_number p pos1 with
          | none => rw [hd2] at h; cases h
          | some dp2 =>
            obtain ⟨cd, pos2⟩ := dp2
            rw [hd2] at h
            dsimp only at h
            obtain ⟨hlt3, hlt4⟩ := decode_number_pos_lt hd2
            split_ifs at h
            all_goals first
              | (cases h; done)
              | (obtain rfl := Except.ok.inj h; dsimp only; omega)

/-- The `while bps_patch.tell() < patch_end - 12` command loop of
`validate_patch`, structured with an explicit iteration budget.  Every
successful step strictly advances the patch position and keeps it at most
`p.length` (`validateStep_pos_lt`), so a budget exceeding
`p.length - s.pos` is never exhausted (`validateLoop_total`); the `none`
arm is dead code, discharged by that proof at the call site. -/
def validateLoop (p : List Nat) (source_size target_size : Nat) :
    Nat → VState → Option (Except (BpsError × Nat) VState)
  | 0, _ => none
  | fuel + 1, s =>
    if (s.pos : Int) < (p.length : Int) - 12 then
      match validateStep p source_size target_size s with
      | .error e => some (.error e)
      | .ok s' => validateLoop p source_size target_size fuel s'
    else some (.ok s)

/-- With a budget exceeding `p.length - s.pos`, the command loop always
returns a result: the loop in the Python source terminates. -/
theorem validateLoop_total (p : List Nat) (ss ts : Nat) :
    ∀ fuel s, p.length - s.pos < fuel →
      validateLoop p ss ts fuel s ≠ none := by
  intro fuel
  induction fuel with
  | zero => intro s h; omega
  | succ f ih =>
    intro s h
    rw [validateLoop]
    by_cases hc : (s.pos : Int) < (p.length : Int) - 12
    · rw [if_pos hc]
      cases hstep : validateStep p ss ts s with
      | error e => simp
      | ok s' =>
        have := validateStep_pos_lt hstep
        exact ih s' (by omega)
    · rw [if_neg hc]
      simp

/-- Python `validate_patch(bps_patch)`, over the stream contents `p` and
the entry position `pos0` (immediately overwritten by the initial
`seek(0)`).  Returns the outcome together with the stream position on
return or at the raise. -/
def validate_patch (p : List Nat) (pos0 : Nat) : Except BpsError Unit × Nat :=
  -- seek(0); read(4) and compare against b'BPS1'
  if p.take 4 ≠ bpsMagic then (.error .formatMarker, min 4 p.length)
  else
    -- patch_end = seek(0, 2)
    if p.length < 19 then (.error .patchTooShort, p.length)
    else
      -- seek(0); crc32 over the first patch_end - 4 bytes, then read the stored value
      let calculated_checksum := crc32 (p.take (p.length - 4))
      let checksum := leNum (p.drop (p.length - 4))
      if calculated_checksum ≠ checksum then
        (.error (.checksum checksum calculated_checksum), p.length)
      else
        -- seek(4); decode the three header numbers
        match decode_number p 4 with
        | none => (.error .decodeSourceSize, p.length)
        | some (source_size, p1) =>
          match decode_number p p1 with
          | none => (.error .decodeTargetSize, p.length)
          | some (target_size, p2) =>
            match decode_number p p2 with
            | none => (.error .decodeMetadataSize, p.length)
            | some (metadata_size, p3) =>
              if metadata_size + p3 > p.length - 12 then (.error .metadataTooLarge, p3)
              else
                -- seek(metadata_size, 1), then the command loop
                match h : validateLoop p source_size target_size (p.length + 1)
                    { pos := p3 + metadata_size, sp := 0, tp := 0, orp := 0 } with
                | none => absurd h (validateLoop_total p source_size target_size _ _ (by omega))
                | some (.error (e, rpos)) => (.error e, rpos)
                | some (.ok s) =>
                  if s.tp ≠ (target_size : Int) then
                    (.error (.sizeMismatch target_size s.tp), s.pos)
                  else (.ok (), s.pos)

/-- The dictionary returned by `patch_info`. -/
structure PatchInfo where
  source_size : Nat
  target_size : Nat
  metadata : List Nat
  source_checksum : Nat
  final_checksum : Nat
deriving Repr, DecidableEq

/-- Python `patch_info(bps_patch)`: validate, then re-read the header
fields and the two leading stored checksums, and `seek(0)` before
returning.  The result is paired with the stream position on return (or
at the raise). -/
def patch_info (p : List Nat) (pos0 : Nat) : Except BpsError PatchInfo × Nat :=
  match validate_patch p pos0 with
  | (.error e, rpos) => (.error e, rpos)
  | (.ok (), _) =>
    -- seek(4); decode the three header numbers
    match decode_number p 4 with
    | none => (.error .invalidNumber, p.length)
    | some (source_size, p1) =>
      match decode_number p p1 with
      | none => (.error .invalidNumber, p.length)
      | some (target_size, p2) =>
        match decode_number p p2 with
        | none => (.error .invalidNumber, p.length)
        | some (metadata_size, p3) =>
          -- read(metadata_size), then seek(-12, 2) and read the two stored
          -- checksums, then seek(0)
          (.ok { source_size := source_size
                 target_size := target_size
                 metadata := (p.drop p3).take metadata_size
                 source_checksum := leNum ((p.drop (p.length - 12)).take 4)
                 final_checksum := leNum ((p.drop (p.length - 8)).take 4) }, 0)

/-- A `while to_go > 0` copy loop of `patch` (SourceRead, TargetRead and
SourceCopy all use this shape): read `min(to_go, 256)` bytes from `src`
at position `spos` (a read returns at most the bytes available), append
them, and decrement `to_go` by 256.  Structured with an explicit
iteration budget equal to the initial `to_go`; since every iteration
subtracts 256 ≥ 1 from `to_go`, the budget is never exhausted while
`to_go > 0`. -/
def chunkedReadAux (src : List Nat) : Nat → Nat → Nat → List Nat × Nat
  | _, spos, 0 => ([], spos)
  | 0, spos, _ => ([], spos)
  | fuel + 1, spos, to_go =>
    let seg := (src.drop spos).take (min to_go 256)
    let (rest, spos1) := chunkedReadAux src fuel (spos + seg.length) (to_go - 256)
    (seg ++ rest, spos1)

/-- Copy `to_go` bytes from `src` starting at `spos` in chunks of at most
256, returning the bytes obtained and the position of `src` after the
reads. -/
def chunkedRead (src : List Nat) (spos to_go : Nat) : List Nat × Nat :=
  chunkedReadAux src to_go spos to_go

/-- The iteration budget of `chunkedReadAux` is irrelevant as long as it
is at least `to_go`: the budget `chunkedRead` passes is never exhausted,
so the loop behaves exactly like Python's unbounded `while to_go > 0`. -/
theorem chunkedReadAux_fuel (src : List Nat) :
    ∀ f1 f2 spos to_go, to_go ≤ f1 → to_go ≤ f2 →
      chunkedReadAux src f1 spos to_go = chunkedReadAux src f2 spos to_go := by
  intro f1
  induction f1 with
  | zero =>
    intro f2 spos to_go h1 _
    have hz : to_go = 0 := by omega
    subst hz
    cases f2 <;> rfl
  | succ f1' ih =>
    intro f2 spos to_go h1 h2
    cases hz : to_go with
    | zero => cases f2 <;> rfl
    | succ t =>
      subst hz
      obtain ⟨f2', rfl⟩ : ∃ f2', f2 = f2' + 1 := ⟨f2 - 1, by omega⟩
      rw [chunkedReadAux, chunkedReadAux]
      · rw [ih f2' (spos + ((src.drop spos).take (min (t + 1) 256)).length) (t + 1 - 256)
          (by omega) (by omega)]
      all_goals omega

/-- The inner `while to_go > 0` loop of the TargetCopy command in `patch`:
`step = min(output.tell() - outread_position, 256)`; seek the output to
`outread_position` (raising on a negative position); read
`min(to_go, step)` bytes (a negative count makes Python's `read` return
everything from the current position); append them to the output and
decrement `to_go` by `step`.  `to_go` and `step` are Python ints, and the
loop genuinely fails to terminate for some states (`step ≤ 0`), hence the
fuel; `none` means the budget was exhausted. -/
def targetCopyLoop (out : List Nat) (orp to_go : Int) :
    Nat → Option (Except BpsError (List Nat × Int))
  | 0 => none
  | fuel + 1 =>
    if to_go > 0 then
      let step : Int := min ((out.length : Int) - orp) 256
      if orp < 0 then some (.error .negativeSeek)
      else
        let m := min to_go step
        let seg :=
          if m < 0 then out.drop orp.toNat else (out.drop orp.toNat).take m.toNat
        targetCopyLoop (out ++ seg) (orp + seg.length) (to_go - step) fuel
    else some (.ok (out, orp))

/-- The command loop of `patch`: decode and execute commands while the
patch position is below `patch_end - 12`, producing output bytes.
State: patch position `ppos`, source stream position `spos`,
`outread_position` `orp`, and the output produced so far `out`.
Errors are the uncaught raises (`decode_number` failures and negative
seeks); `none` means the fuel budget was exhausted. -/
def patchLoop (source p : List Nat) :
    Nat → Nat → Int → Int → List Nat → Option (Except BpsError (List Nat))
  | 0, _, _, _, _ => none
  | fuel + 1, ppos, spos, orp, out =>
    if (ppos : Int) < (p.length : Int) - 12 then
      match decode_number p ppos with
      | none => some (.error .invalidNumber)
      | some (data, ppos1) =>
        let command := data &&& 3
        let length : Nat := (data >>> 2) + 1
        if command = 0 then
          -- SourceRead: save the source position, seek it to output.tell(),
          -- copy, then restore it
          let seg := (chunkedRead source out.length length).1
          patchLoop source p fuel ppos1 spos orp (out ++ seg)
        else if command = 1 then
          -- TargetRead: copy straight from the patch stream
          let r := chunkedRead p ppos1 length
          patchLoop source p fuel r.2 spos orp (out ++ r.1)
        else if command = 2 then
          -- SourceCopy
          match decode_number p ppos1 with
          | none => some (.error .invalidNumber)
          | some (copy_data, ppos2) =>
            let source_relative_offset : Int :=
              (if copy_data &&& 1 = 1 then -1 else 1) * (copy_data >>> 1)
            let spos1 := spos + source_relative_offset
            if spos1 < 0 then some (.error .negativeSeek)
            else
              let r := chunkedRead source spos1.toNat length
              patchLoop source p fuel ppos2 (r.2 : Int) orp (out ++ r.1)
        else
          -- TargetCopy
          match decode_number p ppos1 with
          | none => some (.error .invalidNumber)
          | some (copy_data, ppos2) =>
            let target_relative_offset : Int :=
              (if copy_data &&& 1 = 1 then -1 else 1) * (copy_data >>> 1)
            match targetCopyLoop out (orp + target_relative_offset) (length : Int) fuel with
            | none => none
            | some (.error e) => some (.error e)
            | some (.ok (out1, orp1)) => patchLoop source p fuel ppos2 spos orp1 out1
    else some (.ok out)

/-- Python `patch(source, bps_patch)`: validate, check the source
checksum, re-parse the header, run the command loop, check the output
checksum, and return the output stream `seek(0)`-ed to its start (the
returned pair is the output bytes and the output stream position).
`none` means the fuel budget was exhausted. -/
def patch (source p : List Nat) (fuel : Nat) :
    Option (Except BpsError (List Nat × Nat)) :=
  -- bps_patch.seek(0); validate_patch(bps_patch)
  match (validate_patch p 0).1 with
  | .error e => some (.error e)
  | .ok () =>
    -- seek(-12, 2); read the stored source checksum; crc32 over the source
    let checksum := leNum ((p.drop (p.length - 12)).take 4)
    let calculated_checksum := crc32 source
    if calculated_checksum ≠ checksum then
      some (.error (.incompatibleSource checksum calculated_checksum))
    else
      -- source.seek(0); patch_end; seek(4); three header numbers; skip metadata
      match decode_number p 4 with
      | none => some (.error .invalidNumber)
      | some (_source_size, p1) =>
        match decode_number p p1 with
        | none => some (.error .invalidNumber)
        | some (_target_size, p2) =>
          match decode_number p p2 with
          | none => some (.error .invalidNumber)
          | some (metadata_size, p3) =>
            match patchLoop source p fuel (p3 + metadata_size) 0 0 [] with
            | none => none
            | some (.error e) => some (.error e)
            | some (.ok out) =>
              -- seek(-8, 2); stored target checksum; crc32 over the output
              let checksum1 := leNum ((p.drop (p.length - 8)).take 4)
              let calculated1 := crc32 out
              if calculated1 = checksum1 then some (.ok (out, 0))
              else some (.error (.checksum checksum1 calculated1))

/-- Reference byte-by-byte semantics of an overlapping forward copy:
append `n` bytes one at a time, each read at the current read cursor of
the buffer being extended, so every appended byte is immediately visible
to later reads. -/
def overlapCopy (out : List Nat) (orp : Nat) : Nat → List Nat
  | 0 => out
  | n + 1 => overlapCopy (out ++ [out.getD orp 0]) (orp + 1) n

/-- Mathematical value of a varint byte sequence, the closed form of the
accumulator of `decode_number`: each byte contributes its low 7 bits at
the current scale, and every continuation byte additionally biases the
value by the new scale. -/
def varintVal : List Nat → Nat
  | [] => 0
  | [b] => b &&& 0x7f
  | b :: b2 :: rest => (b &&& 0x7f) + 128 + 128 * varintVal (b2 :: rest)

/-- Well-formed varint encodings: a nonempty byte sequence whose final
byte has the high bit set and whose other bytes have it clear. -/
def isValidVarint : List Nat → Bool
  | [] => false
  | [b] => decide (b < 256) && decide (b &&& 0x80 ≠ 0)
  | b :: b2 :: rest => decide (b < 256) && decide (b &&& 0x80 = 0) && isValidVarint (b2 :: rest)

theorem and_127_eq (b : Nat) : b &&& 127 = b % 128 := by
  have h := Nat.and_pow_two_sub_one_eq_mod b 7
  norm_num at h
  exact h

theorem and_128_eq (b : Nat) : b &&& 128 = if b / 128 % 2 = 1 then 128 else 0 := by
  have h := Nat.and_two_pow b 7
  rw [Nat.testBit_to_div_mod] at h
  norm_num at h
  by_cases hb : b / 128 % 2 = 1 <;> simp [hb] at h <;> simp [hb, h]

/-- When fewer than 12 bytes remain, `decode_number`'s bound check fires
before any byte is read. -/
theorem decodeNumCore_none_of_short {rest : List Nat} (data shift : Nat)
    (h : rest.length < 12) : decodeNumCore rest data shift = none := by
  cases rest with
  | nil => rfl
  | cons x rest' => rw [decodeNumCore, if_pos h]

/-- A successful decode returns the value of the consumed byte slice, and
that slice is a well-formed varint whenever the stream holds bytes. -/
theorem decodeNumCore_val {rest : List Nat} {data shift v k : Nat}
    (h : decodeNumCore rest data shift = some (v, k)) :
    v = data + shift * varintVal (rest.take k) ∧
    ((∀ b ∈ rest, b < 256) → isValidVarint (rest.take k)) := by
  induction rest generalizing data shift v k with
  | nil => simp [decodeNumCore] at h
  | cons x rest' ih =>
    rw [decodeNumCore] at h
    dsimp only at h
    by_cases hlen : (x :: rest').length < 12
    · rw [if_pos hlen] at h; cases h
    · rw [if_neg hlen] at h
      by_cases hbit : x &&& 0x80 ≠ 0
      · rw [if_pos hbit] at h
        cases h
        refine ⟨?_, ?_⟩
        · simp [varintVal, Nat.mul_comm]
        · intro hb
          simp [isValidVarint, hbit, hb x (List.mem_cons_self x rest')]
      · rw [if_neg hbit] at h
        cases hrec : decodeNumCore rest' (data + (x &&& 0x7f) * shift + shift * 128) (shift * 128) with
        | none => rw [hrec] at h; cases h
        | some vk =>
          obtain ⟨v', k'⟩ := vk
          rw [hrec] at h
          cases h
          obtain ⟨hk1, hk2⟩ := decodeNumCore_consumed hrec
          obtain ⟨hval, hvalid⟩ := ih hrec
          cases rest' with
          | nil => simp at hk2
          | cons b2 rest'' =>
            obtain ⟨k'', rfl⟩ : ∃ k'', k' = k'' + 1 := ⟨k' - 1, by omega⟩
            rw [not_not] at hbit
            simp only [Nat.add_sub_cancel, List.take_succ_cons] at hval hvalid ⊢
            refine ⟨?_, ?_⟩
            · rw [varintVal, hval]
              ring
            · intro hb
              have hx : x < 256 := hb x (List.mem_cons_self ..)
              have ht := hvalid fun b hmem => hb b (List.mem_cons_of_mem x hmem)
              simp [isValidVarint, hx, hbit, ht]

/-- Distinct well-formed varints decode to distinct values: the biased
base-128 scheme admits no redundant representations. -/
theorem varintVal_inj : ∀ bs1 bs2 : List Nat, isValidVarint bs1 → isValidVarint bs2 →
    varintVal bs1 = varintVal bs2 → bs1 = bs2 := by
  intro bs1
  induction bs1 with
  | nil => intro bs2 h1; simp [isValidVarint] at h1
  | cons x1 t1 ih =>
    intro bs2 h1 h2 hv
    cases bs2 with
    | nil => simp [isValidVarint] at h2
    | cons x2 t2 =>
      cases t1 with
      | nil =>
        cases t2 with
        | nil =>
          simp only [isValidVarint, Bool.and_eq_true, decide_eq_true_eq] at h1 h2
          simp only [varintVal] at hv
          rw [and_127_eq] at hv
          rw [and_127_eq] at hv
          rw [and_128_eq] at h1 h2
          obtain ⟨hx1, hb1⟩ := h1
          obtain ⟨hx2, hb2⟩ := h2
          split_ifs at hb1 hb2 with hd1 hd2
          all_goals first
            | omega
            | (have hx : x1 = x2 := by omega
               rw [hx])
        | cons y2 t2' =>
          simp only [isValidVarint, Bool.and_eq_true, decide_eq_true_eq] at h1
          simp only [varintVal] at hv
          rw [and_127_eq] at hv
          omega
      | cons y1 t1' =>
        cases t2 with
        | nil =>
          simp only [isValidVarint, Bool.and_eq_true, decide_eq_true_eq] at h2
          simp only [varintVal] at hv
          rw [and_127_eq x2] at hv
          omega
        | cons y2 t2' =>
          simp only [isValidVarint, Bool.and_eq_true, decide_eq_true_eq] at h1 h2
          obtain ⟨⟨hx1, hb1⟩, hval1⟩ := h1
          obtain ⟨⟨hx2, hb2⟩, hval2⟩ := h2
          simp only [varintVal] at hv
          rw [and_127_eq, and_127_eq] at hv
          rw [and_128_eq] at hb1 hb2
          split_ifs at hb1 hb2 with hd1 hd2
          have hx1lt : x1 < 128 := by omega
          have hx2lt : x2 < 128 := by omega
          have hhead : x1 = x2 := by omega
          have htail : varintVal (y1 :: t1') = varintVal (y2 :: t2') := by omega
          rw [hhead, ih (y2 :: t2') hval1 hval2 htail]

/-- A patch accepted by `validate_patch` read `b'BPS1'` as its first four
bytes. -/
theorem validate_ok_magic {p : List Nat} {pos0 : Nat}
    (h : (validate_patch p pos0).1 = .ok ()) : p.take 4 = bpsMagic := by
  by_contra hn
  unfold validate_patch at h
  rw [if_pos hn] at h
  simp at h

/-- A patch accepted by `validate_patch` is at least 19 bytes long. -/
theorem validate_ok_len {p : List Nat} {pos0 : Nat}
    (h : (validate_patch p pos0).1 = .ok ()) : 19 ≤ p.length := by
  have hm := validate_ok_magic h
  by_contra hn
  unfold validate_patch at h
  rw [if_neg (not_not_intro hm), if_pos (by omega)] at h
  simp at h

/-- A patch accepted by `validate_patch` has a self-checksum matching the
CRC-32 of everything before it. -/
theorem validate_ok_crc {p : List Nat} {pos0 : Nat}
    (h : (validate_patch p pos0).1 = .ok ()) :
    crc32 (p.take (p.length - 4)) = leNum (p.drop (p.length - 4)) := by
  have hm := validate_ok_magic h
  have hl := validate_ok_len h
  by_contra hn
  unfold validate_patch at h
  rw [if_neg (not_not_intro hm), if_neg (by omega)] at h
  dsimp only at h
  rw [if_pos hn] at h
  simp at h

/-- A patch accepted by `validate_patch` has three decodable header
numbers, and its metadata does not reach into the trailing 12 bytes. -/
theorem validate_ok_header {p : List Nat} {pos0 : Nat}
    (h : (validate_patch p pos0).1 = .ok ()) :
    ∃ ss p1 ts p2 ms p3, decode_number p 4 = some (ss, p1) ∧
      decode_number p p1 = some (ts, p2) ∧ decode_number p p2 = some (ms, p3) ∧
      ms + p3 ≤ p.length - 12 := by
  have hm := validate_ok_magic h
  have hl := validate_ok_len h
  have hc := validate_ok_crc h
  unfold validate_patch at h
  rw [if_neg (not_not_intro hm), if_neg (by omega)] at h
  dsimp only at h
  rw [if_neg (not_not_intro hc)] at h
  cases hd1 : decode_number p 4 with
  | none => rw [hd1] at h; simp at h
  | some vp1 =>
    obtain ⟨ss, p1⟩ := vp1
    rw [hd1] at h
    dsimp only at h
    cases hd2 : decode_number p p1 with
    | none => rw [hd2] at h; simp at h
    | some vp2 =>
      obtain ⟨ts, p2⟩ := vp2
      rw [hd2] at h
      dsimp only at h
      cases hd3 : decode_number p p2 with
      | none => rw [hd3] at h; simp at h
      | some vp3 =>
        obtain ⟨ms, p3⟩ := vp3
        rw [hd3] at h
        dsimp only at h
        by_cases hmeta : ms + p3 > p.length - 12
        · rw [if_pos hmeta] at h; simp at h
        · exact ⟨ss, p1, ts, p2, ms, p3, rfl, hd2, hd3, by omega⟩

/-- Changing one entry of a byte list changes its little-endian value. -/
theorem leNum_set_ne : ∀ (bs : List Nat) (m x : Nat), m < bs.length →
    x ≠ bs.getD m 0 → leNum (bs.set m x) ≠ leNum bs := by
  intro bs
  induction bs with
  | nil => intro m x hm; simp at hm
  | cons b t ih =>
    intro m x hm hx
    cases m with
    | zero =>
      simp only [List.set_cons_zero, leNum]
      simp only [List.getD_cons_zero] at hx
      omega
    | succ m' =>
      simp only [List.set_cons_succ, leNum]
      simp only [List.getD_cons_succ] at hx
      simp only [List.length_cons] at hm
      have := ih m' x (by omega) hx
      omega

/-- Flipping one bit of a natural number changes it. -/
theorem xor_two_pow_ne (b k : Nat) : b ^^^ 2 ^ k ≠ b := by
  intro h
  have h2 := congrArg (fun t => t.testBit k) h
  simp only [Nat.testBit_xor, Nat.testBit_two_pow_self] at h2
  cases hb : b.testBit k <;> simp [hb] at h2

/-- The only raise inside the TargetCopy copy loop of `patch` is the
negative seek on the output stream. -/
theorem targetCopyLoop_error {out : List Nat} {orp to_go : Int} {fuel : Nat} {e : BpsError}
    (h : targetCopyLoop out orp to_go fuel = some (.error e)) : e = .negativeSeek := by
  induction fuel generalizing out orp to_go with
  | zero => cases h
  | succ f ih =>
    rw [targetCopyLoop] at h
    by_cases h1 : to_go > 0
    · rw [if_pos h1] at h
      by_cases h2 : orp < 0
      · rw [if_pos h2] at h
        cases h
        rfl
      · rw [if_neg h2] at h
        dsimp only at h
        exact ih h
    · rw [if_neg h1] at h
      cases h

/-- The only raises inside the command loop of `patch` are number-decode
failures and negative seeks. -/
theorem patchLoop_error {source p : List Nat} {fuel : Nat} {ppos : Nat} {spos orp : Int}
    {out : List Nat} {e : BpsError}
    (h : patchLoop source p fuel ppos spos orp out = some (.error e)) :
    e = .invalidNumber ∨ e = .negativeSeek := by
  induction fuel generalizing ppos spos orp out with
  | zero => cases h
  | succ f ih =>
    rw [patchLoop] at h
    by_cases hc : (ppos : Int) < (p.length : Int) - 12
    · rw [if_pos hc] at h
      cases hd : decode_number p ppos with
      | none =>
        rw [hd] at h
        cases h
        left
        rfl
      | some dp =>
        obtain ⟨data, ppos1⟩ := dp
        rw [hd] at h
        dsimp only at h
        by_cases h0 : data &&& 3 = 0
        · rw [if_pos h0] at h; exact ih h
        · rw [if_neg h0] at h
          by_cases h1 : data &&& 3 = 1
          · rw [if_pos h1] at h; exact ih h
          · rw [if_neg h1] at h
            by_cases h2 : data &&& 3 = 2
            · rw [if_pos h2] at h
              cases hd2 : decode_number p ppos1 with
              | none =>
                rw [hd2] at h
                cases h
                left
                rfl
              | some dp2 =>
                obtain ⟨cd, ppos2⟩ := dp2
                rw [hd2] at h
                dsimp only at h
                by_cases hneg :
                    spos + (if cd &&& 1 = 1 then -1 else 1) * ((cd >>> 1 : Nat) : Int) < 0
                · rw [if_pos hneg] at h
                  cases h
                  right
                  rfl
                · rw [if_neg hneg] at h
                  exact ih h
            · rw [if_neg h2] at h
              cases hd2 : decode_number p ppos1 with
              | none =>
                rw [hd2] at h
                cases h
                left
                rfl
              | some dp2 =>
                obtain ⟨cd, ppos2⟩ := dp2
                rw [hd2] at h
                dsimp only at h
                cases htc : targetCopyLoop out
                    (orp + (if cd &&& 1 = 1 then -1 else 1) * ((cd >>> 1 : Nat) : Int))
                    (((data >>> 2) + 1 : Nat) : Int) f with
                | none => rw [htc] at h; cases h
                | some r =>
                  rw [htc] at h
                  cases r with
                  | error e2 =>
                    dsimp only at h
                    cases h
                    right
                    exact targetCopyLoop_error htc
                  | ok pr =>
                    obtain ⟨out1, orp1⟩ := pr
                    dsimp only at h
                    exact ih h
    · rw [if_neg hc] at h
      cases h

/-- Appending one chunk of already-present bytes agrees with appending the
same bytes one at a time. -/
theorem overlapCopy_chunk : ∀ (m : Nat) (out : List Nat) (orp r : Nat),
    orp + m ≤ out.length →
    overlapCopy out orp (m + r) = overlapCopy (out ++ (out.drop orp).take m) (orp + m) r := by
  intro m
  induction m with
  | zero => intro out orp r h; simp [overlapCopy]
  | succ m' ih =>
    intro out orp r h
    have horp : orp < out.length := by omega
    have hb : out.drop orp = out.getD orp 0 :: out.drop (orp + 1) := by
      rw [List.drop_eq_getElem_cons horp]
      congr 1
      simp [List.getD_eq_getElem?_getD, List.getElem?_eq_getElem horp]
    have hL : overlapCopy out orp (m' + 1 + r) =
        overlapCopy (out ++ [out.getD orp 0]) (orp + 1) (m' + r) := by
      have hn : m' + 1 + r = (m' + r) + 1 := by omega
      rw [hn]
      rfl
    rw [hL, ih (out ++ [out.getD orp 0]) (orp + 1) r (by simp; omega)]
    have hdrop : (out ++ [out.getD orp 0]).drop (orp + 1) =
        out.drop (orp + 1) ++ [out.getD orp 0] :=
      List.drop_append_of_le_length (by omega)
    have harg : out ++ [out.getD orp 0] ++ ((out ++ [out.getD orp 0]).drop (orp + 1)).take m' =
        out ++ (out.drop orp).take (m' + 1) := by
      rw [hdrop, List.take_append_of_le_length (by simp; omega), List.append_assoc]
      congr 1
      rw [hb]
      simp
    rw [harg]
    congr 1
    omega

/-- `overlapCopy` appends exactly `n` bytes. -/
theorem overlapCopy_length : ∀ (n : Nat) (out : List Nat) (orp : Nat),
    (overlapCopy out orp n).length = out.length + n := by
  intro n
  induction n with
  | zero => intro out orp; rfl
  | succ n' ih =>
    intro out orp
    have hstep : overlapCopy out orp (n' + 1) =
        overlapCopy (out ++ [out.getD orp 0]) (orp + 1) n' := rfl
    rw [hstep, ih]
    simp only [List.length_append, List.length_cons, List.length_nil]
    omega

/-- The chunked TargetCopy loop of `patch` computes exactly the
byte-at-a-time overlapping copy whenever the read cursor starts strictly
inside the produced output, and it needs at most one iteration more than
the number of bytes to copy. -/
theorem targetCopyLoop_spec : ∀ (fuel : Nat) (n : Nat) (out : List Nat) (orp : Nat),
    orp < out.length → n < fuel →
    targetCopyLoop out (orp : Int) (n : Int) fuel =
      some (.ok (overlapCopy out orp n, ((orp + n : Nat) : Int))) := by
  intro fuel
  induction fuel with
  | zero => intro n out orp _ hn; omega
  | succ f ih =>
    intro n out orp horp hn
    rw [targetCopyLoop]
    by_cases hn0 : (n : Int) > 0
    · rw [if_pos hn0, if_neg (by omega : ¬ ((orp : Nat) : Int) < 0)]
      dsimp only
      have hstep : min ((out.length : Int) - (orp : Nat)) 256 =
          ((min (out.length - orp) 256 : Nat) : Int) := by omega
      have hm : min ((n : Nat) : Int) (min ((out.length : Int) - (orp : Nat)) 256) =
          ((min n (min (out.length - orp) 256) : Nat) : Int) := by omega
      rw [hm]
      rw [if_neg (by omega : ¬ ((min n (min (out.length - orp) 256) : Nat) : Int) < 0)]
      rw [Int.toNat_ofNat, Int.toNat_ofNat]
      have hseglen : ((out.drop orp).take (min n (min (out.length - orp) 256))).length =
          min n (min (out.length - orp) 256) := by
        simp only [List.length_take, List.length_drop]
        omega
      rw [hseglen, hstep]
      have hsplit : (orp : Int) + ((min n (min (out.length - orp) 256) : Nat) : Int) =
          ((orp + min n (min (out.length - orp) 256) : Nat) : Int) := by omega
      have hto : ((n : Nat) : Int) - ((min (out.length - orp) 256 : Nat) : Int) =
          ((n - min (out.length - orp) 256 : Nat) : Int) -
            ((min (out.length - orp) 256 - n : Nat) : Int) := by omega
      rw [hsplit]
      by_cases hbig : min (out.length - orp) 256 < n
      · -- a full chunk of `step` bytes; strictly fewer than `n` remain
        have hmn : min n (min (out.length - orp) 256) = min (out.length - orp) 256 := by omega
        have hto2 : ((n : Nat) : Int) - ((min (out.length - orp) 256 : Nat) : Int) =
            ((n - min (out.length - orp) 256 : Nat) : Int) := by omega
        rw [hmn, hto2]
        rw [ih (n - min (out.length - orp) 256)
            (out ++ (out.drop orp).take (min (out.length - orp) 256))
            (orp + min (out.length - orp) 256)
            (by simp; omega) (by omega)]
        have hchunk := overlapCopy_chunk (min (out.length - orp) 256) out orp
          (n - min (out.length - orp) 256) (by omega)
        have hn2 : min (out.length - orp) 256 + (n - min (out.length - orp) 256) = n := by
          omega
        rw [hn2] at hchunk
        rw [← hchunk]
        have harith : orp + min (out.length - orp) 256 + (n - min (out.length - orp) 256) =
            orp + n := by omega
        rw [harith]
      · -- the final chunk: `n ≤ step`, everything remaining is copied
        have hmn : min n (min (out.length - orp) 256) = n := by omega
        rw [hmn]
        have hto2 : ((n : Nat) : Int) - ((min (out.length - orp) 256 : Nat) : Int) ≤ 0 := by
          omega
        obtain ⟨f', rfl⟩ : ∃ f', f = f' + 1 := ⟨f - 1, by omega⟩
        rw [targetCopyLoop]
        rw [if_neg (by omega)]
        have hchunk := overlapCopy_chunk n out orp 0 (by omega)
        have hn2 : n + 0 = n := by omega
        rw [hn2] at hchunk
        rw [hchunk]
        rfl
    · have hn' : n = 0 := by omega
      subst hn'
      rw [if_neg hn0]
      simp [overlapCopy]

/-- If the TargetCopy read cursor starts at or beyond the end of the
produced output, the chunk size is never positive, `to_go` never shrinks,
and the loop runs forever (every budget is exhausted). -/
theorem targetCopyLoop_stuck : ∀ (fuel : Nat) (out : List Nat) (orp to_go : Int),
    0 ≤ orp → (out.length : Int) ≤ orp → 0 < to_go →
    targetCopyLoop out orp to_go fuel = none := by
  intro fuel
  induction fuel with
  | zero => intro out orp to_go _ _ _; rfl
  | succ f ih =>
    intro out orp to_go h0 hlen hpos
    rw [targetCopyLoop, if_pos hpos, if_neg (by omega)]
    dsimp only
    have hdrop : out.drop orp.toNat = [] := by
      apply List.drop_eq_nil_of_le
      omega
    have hstep : min ((out.length : Int) - orp) 256 ≤ 0 := by omega
    by_cases hm : min to_go (min ((out.length : Int) - orp) 256) < 0
    · rw [if_pos hm, hdrop]
      have := ih (out ++ []) (orp + (([] : List Nat).length : Nat)) (to_go - min ((out.length : Int) - orp) 256) (by simp; omega) (by simp; omega) (by omega)
      simpa using this
    · rw [if_neg hm, hdrop]
      have hm0 : min to_go (min ((out.length : Int) - orp) 256) = 0 := by omega
      rw [hm0]
      have := ih (out ++ []) (orp + ((([] : List Nat).take (0 : Int).toNat).length : Nat)) (to_go - min ((out.length : Int) - orp) 256) (by simp; omega) (by simp; omega) (by omega)
      simpa using this

/-- A complete well-formed patch for a 3-byte source `[10, 20, 30]` and
the 6-byte target `[10, 20, 30, 10, 20, 30]`: magic, header sizes 3/6/0,
a SourceRead of 3 bytes, a TargetCopy of 3 bytes at offset 0, and the
three stored CRC-32 checksums. -/
def exA : List Nat :=
  [66, 80, 83, 49, 131, 134, 128, 136, 139, 128,
   242, 182, 119, 38, 203, 252, 201, 236, 111, 248, 11, 36]

/-- The source stream `exA` was built for. -/
def exSource : List Nat := [10, 20, 30]

/-- A well-formed patch (header sizes 2/4/0; a SourceRead of 2 bytes then
a TargetCopy of 2 bytes at relative offset +1) whose stored source
checksum is `crc32 [] = 0`: `validate_patch` accepts it, yet applying it
to the empty source (which passes the source-checksum comparison) makes
the TargetCopy read cursor land beyond the bytes actually produced, and
the chunked copy loop never terminates. -/
def exPstar : List Nat :=
  [66, 80, 83, 49, 130, 132, 128, 132, 135, 130,
   0, 0, 0, 0, 0, 0, 0, 0, 10, 89, 211, 239]

/-- A 12-byte stream whose first byte is a complete varint. -/
def exTail12 : List Nat := List.replicate 12 128

/-- `exTail12` with a different first byte. -/
def exTail12b : List Nat := 129 :: List.replicate 11 128

/-- `patch` never returns, whatever iteration budget it is given. -/
def patchDiverges (source p : List Nat) : Prop :=
  ∀ fuel, patch source p fuel = none

/-- Claim C2 (counterexample): `decode_number` can consume a byte of the
trailing 12-byte checksum region.  On a 12-byte stream the whole stream
is the trailing region, yet decoding at position 0 succeeds after reading
the byte at index 0 = length − 12 (its value flows into the result, as
the second decode shows), so the claim that no byte of the final 12 is
ever read is false. -/
theorem decode_reads_byte_at_len_minus_12 :
    decode_number exTail12 0 = some (0, 1) ∧
    decode_number exTail12b 0 = some (1, 1) ∧
    exTail12.length - 12 = 0 := by
  refine ⟨by decide, by decide, by decide⟩

/-- Claim C2 (amended): `decode_number` fails with the decode `ValueError`
whenever the position before a byte read exceeds `length - 12`;
consequently every consumed byte lies at an index at most `length - 12`,
so the final 11 bytes are never consumed as part of a number (the byte
exactly 12 from the end can be). -/
theorem decode_number_bound_check (p : List Nat) (pos : Nat) :
    (pos + 12 > p.length → decode_number p pos = none) ∧
    (∀ v pos1, decode_number p pos = some (v, pos1) →
      pos < pos1 ∧ pos1 + 11 ≤ p.length) := by
  constructor
  · intro hshort
    unfold decode_number
    rw [decodeNumCore_none_of_short 0 1 (by simp; omega)]
  · intro v pos1 h
    exact decode_number_pos_lt h

/-- Claim C2 (witness): the bound check at work on concrete streams. -/
theorem decode_number_bound_check_witness :
    decode_number [1, 2, 3] 0 = none ∧ 4 < 5 ∧ 5 + 11 ≤ exA.length := by
  refine ⟨(decode_number_bound_check [1, 2, 3] 0).1 (by decide), ?_, ?_⟩
  · exact ((decode_number_bound_check exA 4).2 3 5 (by decide)).1
  · exact ((decode_number_bound_check exA 4).2 3 5 (by decide)).2

/-- Claim C3: `decode_number` decodes the bijective base-128 varint: a
high-bit byte terminates the number; the result is the value of the
consumed byte slice under `varintVal` (low 7 bits at the current scale,
plus the accumulated bias after every continuation byte); the stream
position advances by exactly the bytes consumed (the slice taken); the
consumed slice of a byte stream is a well-formed varint; and well-formed
varints decode injectively, so no value has two distinct encodings. -/
theorem decode_number_bijective_base128 :
    (∀ (p : List Nat) (pos v pos1 : Nat), decode_number p pos = some (v, pos1) →
      pos < pos1 ∧ v = varintVal ((p.drop pos).take (pos1 - pos)) ∧
      ((∀ b ∈ p, b < 256) → isValidVarint ((p.drop pos).take (pos1 - pos)))) ∧
    (∀ bs1 bs2 : List Nat, isValidVarint bs1 → isValidVarint bs2 →
      varintVal bs1 = varintVal bs2 → bs1 = bs2) := by
  constructor
  · intro p pos v pos1 h
    have hlt := decode_number_pos_lt h
    unfold decode_number at h
    cases hc : decodeNumCore (p.drop pos) 0 1 with
    | none => rw [hc] at h; cases h
    | some vk =>
      obtain ⟨v', k⟩ := vk
      rw [hc] at h
      cases h
      obtain ⟨hval, hvalid⟩ := decodeNumCore_val hc
      have hk : pos + k - pos = k := by omega
      rw [hk]
      refine ⟨by omega, by simpa using hval, fun hb => hvalid ?_⟩
      intro b hmem
      exact hb b (List.drop_subset pos p hmem)
  · exact varintVal_inj

/-- Claim C3 (witness): the varint at offset 4 of `exA` (one byte, value
3), and injectivity applied at a concrete encoding. -/
theorem decode_number_bijective_base128_witness :
    (4 < 5 ∧ 3 = varintVal ((exA.drop 4).take (5 - 4)) ∧
      ((∀ b ∈ exA, b < 256) → isValidVarint ((exA.drop 4).take (5 - 4)))) ∧
    ([131] : List Nat) = [131] := by
  refine ⟨decode_number_bijective_base128.1 exA 4 3 5 (by decide), ?_⟩
  exact decode_number_bijective_base128.2 [131] [131] (by decide) (by decide) rfl

/-- Claim C4 (counterexample): a patch shorter than 19 bytes whose magic
cannot be read fails with the format-marker error, not the
patch-too-short error, so "regardless of the patch's contents" is false. -/
theorem short_patch_not_always_truncated :
    (validate_patch [] 0).1 = .error .formatMarker ∧
    ([] : List Nat).length < 19 ∧
    BpsError.formatMarker ≠ BpsError.patchTooShort := by
  refine ⟨by decide, by decide, by decide⟩

/-- Claim C4 (amended): every patch stream shorter than 19 bytes whose
first four bytes read back as `b'BPS1'` fails validation with the
"Patch too short" error. -/
theorem short_patch_truncated (p : List Nat) (pos0 : Nat)
    (hm : p.take 4 = bpsMagic) (hl : p.length < 19) :
    (validate_patch p pos0).1 = .error .patchTooShort := by
  unfold validate_patch
  rw [if_neg (not_not_intro hm), if_pos hl]

/-- Claim C4 (witness): the bare magic marker is 4 < 19 bytes long and is
rejected as too short. -/
theorem short_patch_truncated_witness :
    (validate_patch [66, 80, 83, 49] 7).1 = .error .patchTooShort :=
  short_patch_truncated [66, 80, 83, 49] 7 (by decide) (by decide)

/-- Claim C5: flipping any single bit of the trailing 4-byte self-checksum
of an accepted patch makes `validate_patch` fail with the checksum error
— never any other error and never success — and the error carries both
the (changed) stored value and the recomputed CRC-32, which differ. -/
theorem checksum_bit_flip_detected (p : List Nat) (pos0 pos0' j k : Nat)
    (hv : (validate_patch p pos0).1 = .ok ())
    (hj1 : p.length - 4 ≤ j) (hj2 : j < p.length) (hk : k < 8) :
    (validate_patch (p.set j (p.getD j 0 ^^^ 2 ^ k)) pos0').1 =
      .error (.checksum (leNum ((p.set j (p.getD j 0 ^^^ 2 ^ k)).drop (p.length - 4)))
        (crc32 (p.take (p.length - 4)))) ∧
    leNum ((p.set j (p.getD j 0 ^^^ 2 ^ k)).drop (p.length - 4)) ≠
      crc32 (p.take (p.length - 4)) := by
  have hm := validate_ok_magic hv
  have hl := validate_ok_len hv
  have hc := validate_ok_crc hv
  set p' := p.set j (p.getD j 0 ^^^ 2 ^ k) with hp'
  have hlen' : p'.length = p.length := by simp [hp']
  have htake4 : p'.take 4 = p.take 4 := List.take_set_of_lt _ p (by omega)
  have htake : p'.take (p.length - 4) = p.take (p.length - 4) := by
    by_cases hj : p.length - 4 < j
    · exact List.take_set_of_lt _ p hj
    · have hj' : j = p.length - 4 := by omega
      rw [hp', List.set_take]
      apply List.set_eq_of_length_le
      simp
      omega
  have hdrop : p'.drop (p.length - 4) =
      (p.drop (p.length - 4)).set (j - (p.length - 4)) (p.getD j 0 ^^^ 2 ^ k) := by
    rw [hp', List.drop_set, if_neg (by omega)]
  have hgetD : (p.drop (p.length - 4)).getD (j - (p.length - 4)) 0 = p.getD j 0 := by
    simp only [List.getD_eq_getElem?_getD, List.getElem?_drop]
    congr 2
    omega
  have hstored_ne : leNum (p'.drop (p.length - 4)) ≠ leNum (p.drop (p.length - 4)) := by
    rw [hdrop]
    apply leNum_set_ne
    · simp only [List.length_drop]
      omega
    · rw [hgetD]
      exact xor_two_pow_ne _ k
  have hne : crc32 (p.take (p.length - 4)) ≠ leNum (p'.drop (p.length - 4)) := by
    rw [hc]
    exact fun heq2 => hstored_ne heq2.symm
  constructor
  · unfold validate_patch
    rw [htake4, if_neg (not_not_intro hm), if_neg (by omega : ¬ p'.length < 19)]
    dsimp only
    have hlen4 : p'.length - 4 = p.length - 4 := by omega
    have hcond : crc32 (p'.take (p'.length - 4)) ≠ leNum (p'.drop (p'.length - 4)) := by
      rw [hlen4, htake]
      exact hne
    rw [if_pos hcond, hlen4, htake]
  · exact fun heq => hstored_ne (heq.trans hc)

/-- Claim C5 (witness): flipping the lowest bit of the final byte of the
concrete valid patch `exA` yields exactly the checksum error. -/
theorem checksum_bit_flip_detected_witness :
    (validate_patch (exA.set 21 (exA.getD 21 0 ^^^ 2 ^ 0)) 3).1 =
      .error (.checksum (leNum ((exA.set 21 (exA.getD 21 0 ^^^ 2 ^ 0)).drop (exA.length - 4)))
        (crc32 (exA.take (exA.length - 4)))) ∧
    leNum ((exA.set 21 (exA.getD 21 0 ^^^ 2 ^ 0)).drop (exA.length - 4)) ≠
      crc32 (exA.take (exA.length - 4)) :=
  checksum_bit_flip_detected exA 0 3 21 0 (by decide) (by decide) (by decide) (by decide)

/-- Claim C6: during validation a TargetCopy command (tag 3) fails with a
bounds error exactly when, after applying the decoded signed offset, the
outread cursor is negative or at least the entry `target_position`, or
the advanced `target_position` exceeds `target_size`; on success
`target_position` grows by the length and the outread cursor becomes
offset-adjusted-entry-value plus the length (the check uses the value
before that final addition, so the cursor may end beyond the entry
`target_position`, as the witness shows). -/
theorem targetCopy_validation_bounds (p : List Nat) (ss ts : Nat) (s : VState)
    (data pos1 copy_data pos2 : Nat)
    (hd : decode_number p s.pos = some (data, pos1))
    (hc : data &&& 3 = 3)
    (hcd : decode_number p pos1 = some (copy_data, pos2)) :
    ((∃ e rpos, validateStep p ss ts s = .error (e, rpos) ∧
        (e = .readBeyondBeginningOfTarget ∨ e = .readBeyondEndOfTarget ∨
          e = .writeBeyondEndOfTarget)) ↔
      (s.orp + (if copy_data &&& 1 = 1 then -1 else 1) * ((copy_data >>> 1 : Nat) : Int) < 0 ∨
        s.orp + (if copy_data &&& 1 = 1 then -1 else 1) * ((copy_data >>> 1 : Nat) : Int) ≥ s.tp ∨
        s.tp + (((data >>> 2) + 1 : Nat) : Int) > (ts : Int))) ∧
    (¬ (s.orp + (if copy_data &&& 1 = 1 then -1 else 1) * ((copy_data >>> 1 : Nat) : Int) < 0 ∨
        s.orp + (if copy_data &&& 1 = 1 then -1 else 1) * ((copy_data >>> 1 : Nat) : Int) ≥ s.tp ∨
        s.tp + (((data >>> 2) + 1 : Nat) : Int) > (ts : Int)) →
      validateStep p ss ts s = .ok
        { pos := pos2, sp := s.sp, tp := s.tp + (((data >>> 2) + 1 : Nat) : Int),
          orp := s.orp + (if copy_data &&& 1 = 1 then -1 else 1) * ((copy_data >>> 1 : Nat) : Int) +
            (((data >>> 2) + 1 : Nat) : Int) }) := by
  have hstep : validateStep p ss ts s =
      (if s.orp + (if copy_data &&& 1 = 1 then -1 else 1) * ((copy_data >>> 1 : Nat) : Int) < 0 then
        .error (.readBeyondBeginningOfTarget, pos2)
      else if s.orp + (if copy_data &&& 1 = 1 then -1 else 1) * ((copy_data >>> 1 : Nat) : Int) ≥ s.tp then
        .error (.readBeyondEndOfTarget, pos2)
      else if s.tp + (((data >>> 2) + 1 : Nat) : Int) > (ts : Int) then
        .error (.writeBeyondEndOfTarget, pos2)
      else .ok
        { pos := pos2, sp := s.sp, tp := s.tp + (((data >>> 2) + 1 : Nat) : Int),
          orp := s.orp + (if copy_data &&& 1 = 1 then -1 else 1) * ((copy_data >>> 1 : Nat) : Int) +
            (((data >>> 2) + 1 : Nat) : Int) }) := by
    unfold validateStep
    rw [hd]
    dsimp only
    rw [if_neg (by omega : ¬ data &&& 3 = 0), if_neg (by omega : ¬ data &&& 3 = 1),
      if_neg (by omega : ¬ data &&& 3 = 2), hcd]
  constructor
  · constructor
    · rintro ⟨e, rpos, heq, hor⟩
      by_contra hno
      have hna : ¬ (s.orp + (if copy_data &&& 1 = 1 then -1 else 1) * ((copy_data >>> 1 : Nat) : Int) < 0) :=
        fun hx => hno (Or.inl hx)
      have hnb : ¬ (s.orp + (if copy_data &&& 1 = 1 then -1 else 1) * ((copy_data >>> 1 : Nat) : Int) ≥ s.tp) :=
        fun hx => hno (Or.inr (Or.inl hx))
      have hnc : ¬ (s.tp + (((data >>> 2) + 1 : Nat) : Int) > (ts : Int)) :=
        fun hx => hno (Or.inr (Or.inr hx))
      rw [hstep, if_neg hna, if_neg hnb, if_neg hnc] at heq
      cases heq
    · intro hor
      by_cases ha : s.orp + (if copy_data &&& 1 = 1 then -1 else 1) * ((copy_data >>> 1 : Nat) : Int) < 0
      · exact ⟨.readBeyondBeginningOfTarget, pos2, by rw [hstep, if_pos ha], Or.inl rfl⟩
      · by_cases hb : s.orp + (if copy_data &&& 1 = 1 then -1 else 1) * ((copy_data >>> 1 : Nat) : Int) ≥ s.tp
        · exact ⟨.readBeyondEndOfTarget, pos2, by rw [hstep, if_neg ha, if_pos hb],
            Or.inr (Or.inl rfl)⟩
        · have hc2 : s.tp + (((data >>> 2) + 1 : Nat) : Int) > (ts : Int) := by
            rcases hor with h1 | h2 | h3
            · exact absurd h1 ha
            · exact absurd h2 hb
            · exact h3
          exact ⟨.writeBeyondEndOfTarget, pos2,
            by rw [hstep, if_neg ha, if_neg hb, if_pos hc2], Or.inr (Or.inr rfl)⟩
  · intro hno
    have hna : ¬ (s.orp + (if copy_data &&& 1 = 1 then -1 else 1) * ((copy_data >>> 1 : Nat) : Int) < 0) :=
      fun hx => hno (Or.inl hx)
    have hnb : ¬ (s.orp + (if copy_data &&& 1 = 1 then -1 else 1) * ((copy_data >>> 1 : Nat) : Int) ≥ s.tp) :=
      fun hx => hno (Or.inr (Or.inl hx))
    have hnc : ¬ (s.tp + (((data >>> 2) + 1 : Nat) : Int) > (ts : Int)) :=
      fun hx => hno (Or.inr (Or.inr hx))
    rw [hstep, if_neg hna, if_neg hnb, if_neg hnc]

/-- Claim C6 (witness): a TargetCopy of length 4 with offset +2 entered at
`target_position = 3`, `outread_position = 0` succeeds, and the final
outread cursor (6) legitimately ends beyond the entry `target_position`
(3). -/
theorem targetCopy_validation_bounds_witness :
    validateStep [143, 132, 0, 0, 0, 0, 0, 0, 0, 0, 0, 0, 0, 0] 5 10
      { pos := 0, sp := 0, tp := 3, orp := 0 } =
      .ok { pos := 2, sp := 0, tp := 7, orp := 6 } ∧ (6 : Int) > 3 := by
  constructor
  · have h := (targetCopy_validation_bounds [143, 132, 0, 0, 0, 0, 0, 0, 0, 0, 0, 0, 0, 0]
      5 10 { pos := 0, sp := 0, tp := 3, orp := 0 } 15 1 4 2
      (by decide) (by decide) (by decide)).2 (by decide)
    rw [h]
    decide
  · decide

/-- Claim C8 (counterexample): validating the valid patch `exA` twice from
position 0 gives the same result both times, but the stream finishes at
position 10, not at its pre-call position 0 — `validate_patch` seeks, so
the position is not restored. -/
theorem validate_moves_stream_position :
    validate_patch exA 0 = (.ok (), 10) ∧
    validate_patch exA (validate_patch exA 0).2 = (.ok (), 10) ∧
    (validate_patch exA 0).2 ≠ 0 := by
  refine ⟨by decide, by decide, by decide⟩

/-- Claim C8 (amended): `validate_patch` is deterministic and ignores the
entry position (it starts with `seek(0)`): a second call on the unmodified
stream — starting wherever the first call left the position — returns the
same outcome and leaves the position at the same place as the first call.
The final position is in general not the position from before the first
call. -/
theorem validate_idempotent (p : List Nat) (pos0 : Nat) :
    validate_patch p ((validate_patch p pos0).2) = validate_patch p pos0 := rfl

/-- Claim C9: on a validated patch, `patch_info` returns the first two
header varints as `source_size`/`target_size`, the `metadata_size` bytes
that follow the third varint (exactly that many, by the metadata bound
validation established), the little-endian 32-bit values at
`[length-12, length-8)` and `[length-8, length-4)` as the two checksums,
and leaves the stream at position 0. -/
theorem patch_info_fields (p : List Nat) (pos0 : Nat) (ss p1 ts p2 ms p3 : Nat)
    (hv : (validate_patch p pos0).1 = .ok ())
    (h1 : decode_number p 4 = some (ss, p1))
    (h2 : decode_number p p1 = some (ts, p2))
    (h3 : decode_number p p2 = some (ms, p3)) :
    patch_info p pos0 =
      (.ok { source_size := ss, target_size := ts,
             metadata := (p.drop p3).take ms,
             source_checksum := leNum ((p.drop (p.length - 12)).take 4),
             final_checksum := leNum ((p.drop (p.length - 8)).take 4) }, 0) ∧
    ((p.drop p3).take ms).length = ms := by
  have hpair : validate_patch p pos0 = (Except.ok (), (validate_patch p pos0).2) := by
    rw [← hv]
  constructor
  · unfold patch_info
    rw [hpair]
    dsimp only
    rw [h1]
    dsimp only
    rw [h2]
    dsimp only
    rw [h3]
  · obtain ⟨ss', p1', ts', p2', ms', p3', hd1, hd2, hd3, hbound⟩ := validate_ok_header hv
    obtain ⟨rfl, rfl⟩ := Prod.mk.injEq .. ▸ Option.some.inj (h1.symm.trans hd1)
    obtain ⟨rfl, rfl⟩ := Prod.mk.injEq .. ▸ Option.some.inj (h2.symm.trans hd2)
    obtain ⟨rfl, rfl⟩ := Prod.mk.injEq .. ▸ Option.some.inj (h3.symm.trans hd3)
    have hl := validate_ok_len hv
    simp only [List.length_take, List.length_drop]
    omega

/-- Claim C9 (witness): `patch_info` on the concrete valid patch `exA`. -/
theorem patch_info_fields_witness :
    patch_info exA 0 = (.ok ⟨3, 6, [], 645379826, 3972660427⟩, 0) ∧
    ((exA.drop 7).take 0).length = 0 := by
  have h := patch_info_fields exA 0 3 5 6 6 0 7 (by decide) (by decide) (by decide) (by decide)
  refine ⟨?_, h.2⟩
  rw [h.1]
  decide

/-- Claim C1 (amended): when validation succeeds and the source CRC-32
matches the stored source checksum, a terminating run of `patch` either
returns an output stream whose CRC-32 equals the stored final checksum
(bytes `[length-8, length-4)` of the patch, little-endian) positioned at
its start, or raises the checksum error — which carries that stored value
and a recomputed output checksum that differs from it.  (The run need not
terminate at all; see the counterexample.) -/
theorem patch_output_checksum (source p : List Nat) (fuel : Nat)
    (r : Except BpsError (List Nat × Nat))
    (hv : (validate_patch p 0).1 = .ok ())
    (hs : crc32 source = leNum ((p.drop (p.length - 12)).take 4))
    (hr : patch source p fuel = some r) :
    (∀ out posO, r = .ok (out, posO) →
      crc32 out = leNum ((p.drop (p.length - 8)).take 4) ∧ posO = 0) ∧
    (∀ stored calc1, r = .error (.checksum stored calc1) →
      stored = leNum ((p.drop (p.length - 8)).take 4) ∧ calc1 ≠ stored) := by
  unfold patch at hr
  rw [hv] at hr
  dsimp only at hr
  rw [if_neg (not_not_intro hs)] at hr
  cases hd1 : decode_number p 4 with
  | none =>
    rw [hd1] at hr
    cases hr
    exact ⟨fun _ _ hx => (nomatch hx), fun _ _ hx => (nomatch hx)⟩
  | some dp1 =>
    obtain ⟨ss, p1⟩ := dp1
    rw [hd1] at hr
    dsimp only at hr
    cases hd2 : decode_number p p1 with
    | none =>
      rw [hd2] at hr
      cases hr
      exact ⟨fun _ _ hx => (nomatch hx), fun _ _ hx => (nomatch hx)⟩
    | some dp2 =>
      obtain ⟨ts, p2⟩ := dp2
      rw [hd2] at hr
      dsimp only at hr
      cases hd3 : decode_number p p2 with
      | none =>
        rw [hd3] at hr
        cases hr
        exact ⟨fun _ _ hx => (nomatch hx), fun _ _ hx => (nomatch hx)⟩
      | some dp3 =>
        obtain ⟨ms, p3⟩ := dp3
        rw [hd3] at hr
        dsimp only at hr
        cases hpl : patchLoop source p fuel (p3 + ms) 0 0 [] with
        | none => rw [hpl] at hr; cases hr
        | some plr =>
          rw [hpl] at hr
          cases plr with
          | error e =>
            dsimp only at hr
            cases hr
            have he := patchLoop_error hpl
            constructor
            · intro out posO hx; cases hx
            · intro stored calc1 hx
              rcases he with he | he <;> rw [he] at hx <;> cases hx
          | ok out =>
            dsimp only at hr
            by_cases hcrc : crc32 out = leNum ((p.drop (p.length - 8)).take 4)
            · rw [if_pos hcrc] at hr
              cases hr
              constructor
              · intro out' posO hx
                cases hx
                exact ⟨hcrc, rfl⟩
              · intro stored calc1 hx; cases hx
            · rw [if_neg hcrc] at hr
              cases hr
              constructor
              · intro out' posO hx; cases hx
              · intro stored calc1 hx
                cases hx
                exact ⟨rfl, hcrc⟩

/-- Claim C1 (witness): a complete successful run of `patch` on the
concrete pair: the produced target's CRC-32 equals the stored final
checksum and the returned stream is at position 0. -/
theorem patch_output_checksum_witness :
    crc32 [10, 20, 30, 10, 20, 30] = leNum ((exA.drop (exA.length - 8)).take 4) ∧
    (0 : Nat) = 0 :=
  (patch_output_checksum exSource exA 30 (.ok ([10, 20, 30, 10, 20, 30], 0))
    (by decide) (by decide) (by decide)).1 [10, 20, 30, 10, 20, 30] 0 rfl

/-- Claim C7: the chunked TargetCopy copy of `patch` makes every newly
written byte visible to the reads that follow it inside the same command:
whenever the read cursor starts strictly inside the produced output, the
loop computes exactly the byte-at-a-time overlapping copy `overlapCopy`
(hence the repeating-fill pattern; the witness is the 1-byte output
repeated five times). -/
theorem targetCopy_overlap_visible (out : List Nat) (orp n fuel : Nat)
    (h1 : orp < out.length) (h2 : n < fuel) :
    targetCopyLoop out (orp : Int) (n : Int) fuel =
      some (.ok (overlapCopy out orp n, ((orp + n : Nat) : Int))) :=
  targetCopyLoop_spec fuel n out orp h1 h2

/-- Claim C7 (witness): the spec's boundary example — a TargetCopy whose
read cursor lands at 0 with length 5 over a 1-byte output `[7]` appends
that byte five times. -/
theorem targetCopy_overlap_visible_witness :
    targetCopyLoop [7] 0 5 6 = some (.ok ([7, 7, 7, 7, 7, 7], 5)) :=
  (targetCopy_overlap_visible [7] 0 5 6 (by decide) (by decide)).trans (by decide)

/-- Applying `exPstar` to the empty source never terminates: the
SourceRead produces no bytes (the source is empty), the TargetCopy read
cursor (1) lands beyond the bytes actually written (0), the chunk size
`min(write - read, 256)` is never positive, `to_go` never shrinks, and
every fuel budget is exhausted. -/
theorem exPstar_patch_none : patchDiverges [] exPstar := by
  have hloop : ∀ g, patchLoop [] exPstar g 7 0 0 [] = none := by
    intro g
    match g with
    | 0 => rfl
    | 1 => rfl
    | (f + 2) =>
      have h1 : patchLoop [] exPstar (f + 2) 7 0 0 [] =
          patchLoop [] exPstar (f + 1) 8 0 0 [] := rfl
      have h2 : patchLoop [] exPstar (f + 1) 8 0 0 [] =
          (match targetCopyLoop [] 1 2 f with
           | none => none
           | some (.error e) => some (.error e)
           | some (.ok (out1, orp1)) => patchLoop [] exPstar f 10 0 orp1 out1) := rfl
      rw [h1, h2, targetCopyLoop_stuck f [] 1 2 (by decide) (by decide) (by decide)]
  intro fuel
  have hpatch : patch [] exPstar fuel =
      (match patchLoop [] exPstar fuel 7 0 0 [] with
       | none => none
       | some (.error e) => some (.error e)
       | some (.ok out) =>
         if crc32 out = leNum ((exPstar.drop (exPstar.length - 8)).take 4) then
           some (.ok (out, 0))
         else
           some (.error (.checksum (leNum ((exPstar.drop (exPstar.length - 8)).take 4))
             (crc32 out)))) := rfl
  rw [hpatch, hloop fuel]

/-- Claim C1 (counterexample): the hypotheses of the claim — validation
succeeds and the source's CRC-32 equals the stored value at
`[length-12, length-8)` — do not make `patch` return at all: on the
accepted patch `exPstar` and the empty source (whose CRC-32 is the stored
0) the TargetCopy copy loop runs forever, so no output is returned and no
error is raised. -/
theorem patch_need_not_return :
    (validate_patch exPstar 0).1 = .ok () ∧
    crc32 [] = leNum ((exPstar.drop (exPstar.length - 12)).take 4) ∧
    patchDiverges [] exPstar :=
  ⟨by decide, by decide, exPstar_patch_none⟩

/-- Claim C10 (counterexample): acceptance by `validate_patch` does not
make the TargetCopy loops of `patch` terminate.  The patch `exPstar` is
accepted (and the empty source even passes the stored-source-checksum
comparison, since `crc32 [] = 0` is stored), yet `patch` exhausts every
fuel budget: the claimed guarantee relates validation's simulated
`target_position` to the real output length, which a short source with a
colliding CRC-32 breaks. -/
theorem validated_patch_can_diverge :
    (validate_patch exPstar 0).1 = .ok () ∧ patchDiverges [] exPstar :=
  ⟨by decide, exPstar_patch_none⟩

/-- Claim C10 (amended): each TargetCopy inner loop terminates — returning
a result and appending exactly the commanded number of bytes — whenever
the read cursor at command entry lies strictly inside the output already
produced, with a budget exceeding the byte count; each iteration then
copies at least one byte and the remaining count strictly decreases. -/
theorem targetCopy_loop_terminates (out : List Nat) (orp n fuel : Nat)
    (h1 : orp < out.length) (h2 : n < fuel) :
    ∃ out1 orp1, targetCopyLoop out (orp : Int) (n : Int) fuel = some (.ok (out1, orp1)) ∧
      out1.length = out.length + n :=
  ⟨overlapCopy out orp n, ((orp + n : Nat) : Int),
    targetCopyLoop_spec fuel n out orp h1 h2, overlapCopy_length n out orp⟩

/-- Claim C10 (witness): a terminating concrete TargetCopy loop. -/
theorem targetCopy_loop_terminates_witness :
    ∃ out1 orp1, targetCopyLoop [5, 9] 1 2 4 = some (.ok (out1, orp1)) ∧
      out1.length = [5, 9].length + 2 :=
  targetCopy_loop_terminates [5, 9] 1 2 4 (by decide) (by decide)

end Vidua
